import Mathlib

/-!
Verification of `soltravelhelper` (src/soltravelhelper/soltravelhelper.py).

The module computes straight-line distances between solar-system bodies via an
external ephemeris provider, closed-form travel times under constant velocity
or constant symmetric acceleration, and tracks a `Traveler` whose
`current_position` and `date` are mutated by idle/travel operations.

Modelling conventions:
* Python floats are modelled as real numbers `ℝ`.
* A `datetime` instant and a `timedelta` duration are both modelled as real
  numbers of seconds; `timedelta(hours=h)` is `h * 3600` seconds.
* The astropy call `get_body_barycentric(body, time)` is modelled by an
  abstract provider `Ephemeris : String → ℝ → Except PyError Vec3` returning a
  3-vector in meters (the source converts the provider unit to meters with
  `.to(au.m)`); an unknown body or an out-of-range instant is an error that
  propagates verbatim, as in the source.
* Python exceptions are modelled with `Except PyError`.  Two error points in
  the numeric layer come from the host numeric model: the distance value is a
  `numpy.float64`, so dividing it by zero yields `inf` (or `nan` for `0/0`)
  with a warning rather than raising, and raising a negative `numpy.float64`
  to the power `0.5` yields `nan`; the subsequent `dt.timedelta(seconds=...)`
  conversion then raises `OverflowError` on an infinite value and `ValueError`
  on a `nan` value.  The embedding returns `PyError.overflowError` /
  `PyError.valueError` at exactly those points.
* The optional `date=None` parameter is an `Option ℝ`; `none` defaults to the
  ambient call-time instant `now` (`datetime.now()`), matching
  `if not date: date = dt.datetime.now()`.
-/

/-- Python exception classes that can surface from the module. -/
inductive PyError
  /-- Unknown body name, raised by the ephemeris provider. -/
  | bodyNotFound
  /-- Requested instant outside the supported ephemeris range. -/
  | rangeError
  /-- `dt.timedelta(seconds=x)` with `x` infinite. -/
  | overflowError
  /-- `dt.timedelta(seconds=x)` with `x` nan. -/
  | valueError
deriving DecidableEq, Repr

/-- A barycentric position vector, components in meters. -/
structure Vec3 where
  x : ℝ
  y : ℝ
  z : ℝ

/-- Componentwise difference of position vectors. -/
def Vec3.sub (a b : Vec3) : Vec3 :=
  ⟨a.x - b.x, a.y - b.y, a.z - b.z⟩

/-- Euclidean norm, meters: `.norm()` on the difference of barycentric vectors. -/
noncomputable def Vec3.norm (v : Vec3) : ℝ :=
  Real.sqrt (v.x ^ 2 + v.y ^ 2 + v.z ^ 2)

/-- The external ephemeris provider: `ac.get_body_barycentric(body, time)`,
with the unit conversion to meters folded in.  Failure (unknown body,
unsupported instant) is an `Except.error`. -/
def Ephemeris : Type :=
  String → ℝ → Except PyError Vec3

/-- Embedding of `distance(position, destination, date=None)`: resolve both
bodies at the instant (defaulting to `now`) and return the Euclidean norm of
the vector difference in meters.  Provider errors propagate verbatim, the
first lookup (`position`) first, as in the source expression order. -/
noncomputable def distance (eph : Ephemeris) (now : ℝ)
    (position destination : String) (date : Option ℝ) : Except PyError ℝ :=
  let t := date.getD now
  match eph position t with
  | .error e => .error e
  | .ok p =>
    match eph destination t with
    | .error e => .error e
    | .ok q => .ok (Vec3.sub p q).norm

/-- Embedding of
`time_constant_acceleration(position, destination, acceleration, date=None)`:
`dt.timedelta(seconds=2 * (distance(...) / acceleration) ** 0.5)`, in seconds.
With `acceleration = 0` the division yields `inf` (`nan` when the distance is
`0`), and with a negative radicand the power yields `nan`; the `timedelta`
conversion then raises `OverflowError` / `ValueError` respectively. -/
noncomputable def time_constant_acceleration (eph : Ephemeris) (now : ℝ)
    (position destination : String) (acceleration : ℝ) (date : Option ℝ) :
    Except PyError ℝ :=
  match distance eph now position destination date with
  | .error e => .error e
  | .ok d =>
    if acceleration = 0 then
      if d = 0 then .error .valueError else .error .overflowError
    else if d / acceleration < 0 then .error .valueError
    else .ok (2 * Real.sqrt (d / acceleration))

/-- Embedding of
`time_constant_velocity(position, destination, velocity, date=None)`:
`dt.timedelta(seconds=distance(...) / velocity)`, in seconds.  With
`velocity = 0` the division yields `inf` (`nan` when the distance is `0`) and
the `timedelta` conversion raises `OverflowError` / `ValueError`. -/
noncomputable def time_constant_velocity (eph : Ephemeris) (now : ℝ)
    (position destination : String) (velocity : ℝ) (date : Option ℝ) :
    Except PyError ℝ :=
  match distance eph now position destination date with
  | .error e => .error e
  | .ok d =>
    if velocity = 0 then
      if d = 0 then .error .valueError else .error .overflowError
    else .ok (d / velocity)

/-- The `time` argument of `velocity_after_time`: either a raw seconds scalar
or a `dt.timedelta` (modelled by its total seconds). -/
inductive TimeValue
  | seconds (s : ℝ)
  | timedelta (s : ℝ)

/-- `dt.timedelta.total_seconds()`. -/
def TimeValue.total_seconds : TimeValue → ℝ
  | .seconds s => s
  | .timedelta s => s

/-- Embedding of `velocity_after_time(acceleration, time)`: when `time` is a
`timedelta` it is first replaced by `time.total_seconds()`, then
`acceleration * time` is returned. -/
def velocity_after_time (acceleration : ℝ) (time : TimeValue) : ℝ :=
  let t : ℝ :=
    match time with
    | .timedelta d => TimeValue.total_seconds (.timedelta d)
    | .seconds s => s
  acceleration * t

/-- State of a `Traveler`: `current_position` and `date` (seconds). -/
structure Traveler where
  current_position : String
  date : ℝ

/-- `Traveler.__init__(position='earth', date=None)` with the defaults already
resolved (`position` defaults to `"earth"`, `date` to `datetime.now()`). -/
def Traveler.start (position : String) (date : ℝ) : Traveler :=
  ⟨position, date⟩

/-- Embedding of `Traveler.idle_hours(hours)`: `self.date += dt.timedelta(hours=hours)`;
never raises, position unchanged.  The second component is the raised
exception, `none` on normal return. -/
def Traveler.idle_hours (s : Traveler) (hours : ℝ) : Traveler × Option PyError :=
  (⟨s.current_position, s.date + hours * 3600⟩, none)

/-- Embedding of `Traveler.travel_constant_acceleration(destination, acceleration)`.
The right-hand side `time_constant_acceleration(...)` is evaluated completely
before `self.date += ...` assigns, so if it raises, the state is returned
unchanged together with the exception; on success `date` is advanced and then
`current_position` is overwritten. -/
noncomputable def Traveler.travel_constant_acceleration (eph : Ephemeris) (now : ℝ)
    (s : Traveler) (destination : String) (acceleration : ℝ) :
    Traveler × Option PyError :=
  match time_constant_acceleration eph now s.current_position destination
      acceleration (some s.date) with
  | .error e => (s, some e)
  | .ok dur => (⟨destination, s.date + dur⟩, none)

/-- Embedding of `Traveler.travel_constant_velocity(destination, velocity)`,
structured exactly like the acceleration variant. -/
noncomputable def Traveler.travel_constant_velocity (eph : Ephemeris) (now : ℝ)
    (s : Traveler) (destination : String) (velocity : ℝ) :
    Traveler × Option PyError :=
  match time_constant_velocity eph now s.current_position destination
      velocity (some s.date) with
  | .error e => (s, some e)
  | .ok dur => (⟨destination, s.date + dur⟩, none)

/-- One mutating call on a `Traveler`. -/
inductive Op
  | idle (hours : ℝ)
  | travelV (destination : String) (velocity : ℝ)
  | travelA (destination : String) (acceleration : ℝ)

/-- Dispatch one call on the state. -/
noncomputable def step (eph : Ephemeris) (now : ℝ) (s : Traveler) :
    Op → Traveler × Option PyError
  | .idle h => s.idle_hours h
  | .travelV dest v => s.travel_constant_velocity eph now dest v
  | .travelA dest a => s.travel_constant_acceleration eph now dest a

/-- Run a sequence of calls, stopping at the first raised exception (the
state at that point is the state before the failing call, by the atomicity
of each method). -/
noncomputable def run (eph : Ephemeris) (now : ℝ) (s : Traveler) :
    List Op → Traveler × Option PyError
  | [] => (s, none)
  | op :: ops =>
    match step eph now s op with
    | (s₁, none) => run eph now s₁ ops
    | (s₁, some e) => (s₁, some e)

/-- The duration (seconds) one call adds to `date`, computed by the pure
layer: `hours * 3600` for an idle, the corresponding kinematics function for
a travel. -/
noncomputable def opDuration (eph : Ephemeris) (now : ℝ) (s : Traveler) :
    Op → Except PyError ℝ
  | .idle h => .ok (h * 3600)
  | .travelV dest v =>
    time_constant_velocity eph now s.current_position dest v (some s.date)
  | .travelA dest a =>
    time_constant_acceleration eph now s.current_position dest a (some s.date)

/-- The durations of the successfully completed prefix of a call sequence,
each computed by the pure kinematics layer at the state current when the call
is made. -/
noncomputable def durations (eph : Ephemeris) (now : ℝ) :
    Traveler → List Op → List ℝ
  | _, [] => []
  | s, op :: ops =>
    match opDuration eph now s op with
    | .error _ => []
    | .ok d => d :: durations eph now (step eph now s op).1 ops

/-- The destination of the last travel call in the sequence, or the initial
position if the sequence contains no travel call. -/
def finalPos (init : String) : List Op → String
  | [] => init
  | .idle _ :: ops => finalPos init ops
  | .travelV dest _ :: ops => finalPos dest ops
  | .travelA dest _ :: ops => finalPos dest ops

/-- A concrete ephemeris for evaluation: three bodies at fixed positions
(meters), constant in time, every other name an unknown-body error. -/
def ephDemo : Ephemeris := fun body _ =>
  if body = "earth" then .ok ⟨0, 0, 0⟩
  else if body = "mars" then .ok ⟨1, 0, 0⟩
  else if body = "jupiter" then .ok ⟨1, 1, 0⟩
  else .error .bodyNotFound

/-- A provider that rejects every body, for exercising error propagation. -/
def ephNone : Ephemeris := fun _ _ => .error .bodyNotFound

/-! ## Helper lemmas -/

theorem distance_ok (eph : Ephemeris) (now : ℝ) (a b : String) (t : Option ℝ)
    (pa pb : Vec3) (ha : eph a (t.getD now) = .ok pa)
    (hb : eph b (t.getD now) = .ok pb) :
    distance eph now a b t = .ok (Vec3.sub pa pb).norm := by
  simp only [distance]
  rw [ha, hb]

theorem distance_err_left (eph : Ephemeris) (now : ℝ) (a b : String)
    (t : Option ℝ) (e : PyError) (ha : eph a (t.getD now) = .error e) :
    distance eph now a b t = .error e := by
  simp only [distance]
  rw [ha]

theorem distance_nonneg {eph : Ephemeris} {now : ℝ} {a b : String}
    {t : Option ℝ} {d : ℝ} (h : distance eph now a b t = .ok d) : 0 ≤ d := by
  simp only [distance] at h
  rcases ha : eph a (t.getD now) with e | p <;> rw [ha] at h
  · simp at h
  rcases hb : eph b (t.getD now) with e | q <;> rw [hb] at h
  · simp at h
  simp only [Except.ok.injEq] at h
  subst h
  exact Real.sqrt_nonneg _

theorem tcv_ok {eph : Ephemeris} {now : ℝ} {a b : String} {t : Option ℝ}
    {v d : ℝ} (hd : distance eph now a b t = .ok d) (hv : v ≠ 0) :
    time_constant_velocity eph now a b v t = .ok (d / v) := by
  unfold time_constant_velocity
  rw [hd]
  simp [hv]

theorem tca_ok {eph : Ephemeris} {now : ℝ} {a b : String} {t : Option ℝ}
    {acc d : ℝ} (hd : distance eph now a b t = .ok d) (hacc : 0 < acc) :
    time_constant_acceleration eph now a b acc t =
      .ok (2 * Real.sqrt (d / acc)) := by
  unfold time_constant_acceleration
  rw [hd]
  have hrad : ¬d / acc < 0 :=
    not_lt.2 (div_nonneg (distance_nonneg hd) hacc.le)
  simp [hacc.ne', hrad]

theorem distance_ephDemo_earth_mars (now : ℝ) (t : Option ℝ) :
    distance ephDemo now "earth" "mars" t = .ok 1 := by
  rw [distance_ok ephDemo now "earth" "mars" t ⟨0, 0, 0⟩ ⟨1, 0, 0⟩ rfl rfl]
  have h : Vec3.norm (Vec3.sub ⟨0, 0, 0⟩ ⟨1, 0, 0⟩) = 1 := by
    simp [Vec3.norm, Vec3.sub]
  rw [h]

theorem distance_ephDemo_mars_jupiter (now : ℝ) (t : Option ℝ) :
    distance ephDemo now "mars" "jupiter" t = .ok 1 := by
  rw [distance_ok ephDemo now "mars" "jupiter" t ⟨1, 0, 0⟩ ⟨1, 1, 0⟩ rfl rfl]
  have h : Vec3.norm (Vec3.sub ⟨1, 0, 0⟩ ⟨1, 1, 0⟩) = 1 := by
    simp [Vec3.norm, Vec3.sub]
  rw [h]

/-! ## Claim theorems -/

/-- Claim C7: for every `Traveler` state and every (possibly fractional or
negative) hours value, `idle_hours` adds exactly `hours` hours (as seconds) to
`date`, leaves `current_position` unchanged, and raises nothing. -/
theorem idle_hours_adds_exact_hours (s : Traveler) (hours : ℝ) :
    s.idle_hours hours = (⟨s.current_position, s.date + hours * 3600⟩, none) :=
  rfl

/-- Claim C4: `velocity_after_time` returns `acceleration * seconds` on a raw
seconds argument, and an equivalent `timedelta` argument yields the identical
result to its raw-seconds form. -/
theorem velocity_after_time_normalizes (acc s : ℝ) :
    velocity_after_time acc (.seconds s) = acc * s ∧
    velocity_after_time acc (.timedelta s) = velocity_after_time acc (.seconds s) :=
  ⟨rfl, rfl⟩

/-- Claim C8: when the provider resolves both bodies at the requested instant,
`distance` is symmetric in its two body arguments. -/
theorem distance_symm {eph : Ephemeris} {now : ℝ} {a b : String} {t : Option ℝ}
    {pa pb : Vec3} (ha : eph a (t.getD now) = .ok pa)
    (hb : eph b (t.getD now) = .ok pb) :
    distance eph now a b t = distance eph now b a t := by
  rw [distance_ok eph now a b t pa pb ha hb, distance_ok eph now b a t pb pa hb ha]
  simp only [Except.ok.injEq, Vec3.norm, Vec3.sub]
  congr 1
  ring

/-- Witness for `distance_symm` at the concrete demo ephemeris. -/
theorem distance_symm_witness :
    ephDemo "earth" ((none : Option ℝ).getD 0) = .ok ⟨0, 0, 0⟩ ∧
    ephDemo "mars" ((none : Option ℝ).getD 0) = .ok ⟨1, 0, 0⟩ ∧
    distance ephDemo 0 "earth" "mars" none = distance ephDemo 0 "mars" "earth" none :=
  ⟨rfl, rfl, distance_symm rfl rfl⟩

/-- Claim C9: when the provider resolves the body at the requested instant,
`distance` of a body to itself is `0`; identical arguments are not rejected. -/
theorem distance_self_eq_zero {eph : Ephemeris} {now : ℝ} {a : String}
    {t : Option ℝ} {pa : Vec3} (ha : eph a (t.getD now) = .ok pa) :
    distance eph now a a t = .ok 0 := by
  rw [distance_ok eph now a a t pa pa ha ha]
  simp [Vec3.norm, Vec3.sub]

/-- Witness for `distance_self_eq_zero` at the concrete demo ephemeris. -/
theorem distance_self_eq_zero_witness :
    ephDemo "earth" ((none : Option ℝ).getD 0) = .ok ⟨0, 0, 0⟩ ∧
    distance ephDemo 0 "earth" "earth" none = .ok 0 :=
  ⟨rfl, distance_self_eq_zero rfl⟩

/-- Claim C3 (amended): when the ephemeris resolves both bodies and the
velocity is nonzero, `time_constant_velocity` returns exactly
`distance / velocity` seconds.  (At `velocity = 0` the call raises instead of
returning, see the counterexample.) -/
theorem time_constant_velocity_formula {eph : Ephemeris} {now : ℝ}
    {a b : String} {t : Option ℝ} {v d : ℝ}
    (hd : distance eph now a b t = .ok d) (hv : v ≠ 0) :
    time_constant_velocity eph now a b v t = .ok (d / v) :=
  tcv_ok hd hv

/-- Counterexample to claim C3 as stated: at `velocity = 0` (an allowed
"every velocity" instance) the call raises `OverflowError` from
`dt.timedelta(seconds=inf)` instead of returning `distance / velocity`. -/
theorem time_constant_velocity_zero_counterexample :
    time_constant_velocity ephDemo 0 "earth" "mars" 0 none = .error .overflowError ∧
    time_constant_velocity ephDemo 0 "earth" "mars" 0 none ≠ .ok ((1 : ℝ) / 0) := by
  constructor
  · unfold time_constant_velocity
    rw [distance_ephDemo_earth_mars 0 none]
    norm_num
  · unfold time_constant_velocity
    rw [distance_ephDemo_earth_mars 0 none]
    norm_num
    exact fun h => Except.noConfusion h

/-- Witness for `time_constant_velocity_formula` at the concrete demo
ephemeris with `velocity = 2`. -/
theorem time_constant_velocity_formula_witness :
    distance ephDemo 0 "earth" "mars" none = .ok 1 ∧ (2 : ℝ) ≠ 0 ∧
    time_constant_velocity ephDemo 0 "earth" "mars" 2 none = .ok ((1 : ℝ) / 2) :=
  ⟨distance_ephDemo_earth_mars 0 none, by norm_num,
    time_constant_velocity_formula (distance_ephDemo_earth_mars 0 none) (by norm_num)⟩

/-- Claim C2 (amended): when the ephemeris resolves both bodies and the
acceleration is positive, `time_constant_acceleration` returns exactly
`2 * sqrt(distance / acceleration)` seconds.  (At `acceleration = 0` the call
raises instead of returning, see the counterexample.) -/
theorem time_constant_acceleration_formula {eph : Ephemeris} {now : ℝ}
    {a b : String} {t : Option ℝ} {acc d : ℝ}
    (hd : distance eph now a b t = .ok d) (hacc : 0 < acc) :
    time_constant_acceleration eph now a b acc t =
      .ok (2 * Real.sqrt (d / acc)) :=
  tca_ok hd hacc

/-- Counterexample to claim C2 as stated: at `acceleration = 0` (an allowed
"every acceleration" instance) the call raises `OverflowError` from
`dt.timedelta(seconds=inf)` instead of returning the formula value. -/
theorem time_constant_acceleration_zero_counterexample :
    time_constant_acceleration ephDemo 0 "earth" "mars" 0 none =
      .error .overflowError ∧
    time_constant_acceleration ephDemo 0 "earth" "mars" 0 none ≠
      .ok (2 * Real.sqrt ((1 : ℝ) / 0)) := by
  constructor
  · unfold time_constant_acceleration
    rw [distance_ephDemo_earth_mars 0 none]
    norm_num
  · unfold time_constant_acceleration
    rw [distance_ephDemo_earth_mars 0 none]
    norm_num
    exact fun h => Except.noConfusion h

/-- Witness for `time_constant_acceleration_formula` at the concrete demo
ephemeris with `acceleration = 4`. -/
theorem time_constant_acceleration_formula_witness :
    distance ephDemo 0 "earth" "mars" none = .ok 1 ∧ (0 : ℝ) < 4 ∧
    time_constant_acceleration ephDemo 0 "earth" "mars" 4 none =
      .ok (2 * Real.sqrt ((1 : ℝ) / 4)) :=
  ⟨distance_ephDemo_earth_mars 0 none, by norm_num,
    time_constant_acceleration_formula (distance_ephDemo_earth_mars 0 none) (by norm_num)⟩

/-- Claim C5 (amended): with a positive distance, a negative velocity yields
a defined negative duration (no error), but `velocity = 0` raises
`OverflowError`, a negative acceleration raises `ValueError` (the `nan` from
the negative radicand), and `acceleration = 0` raises `OverflowError`: the
zero/negative-acceleration cases are errors, not defined degenerate values. -/
theorem degenerate_inputs_behavior {eph : Ephemeris} {now : ℝ}
    {a b : String} {t : Option ℝ} {d v acc : ℝ}
    (hd : distance eph now a b t = .ok d) (hdpos : 0 < d)
    (hv : v < 0) (hacc : acc < 0) :
    time_constant_velocity eph now a b v t = .ok (d / v) ∧ d / v < 0 ∧
    time_constant_velocity eph now a b 0 t = .error .overflowError ∧
    time_constant_acceleration eph now a b acc t = .error .valueError ∧
    time_constant_acceleration eph now a b 0 t = .error .overflowError := by
  refine ⟨tcv_ok hd hv.ne, div_neg_of_pos_of_neg hdpos hv,
    ?_, ?_, ?_⟩
  · unfold time_constant_velocity
    rw [hd]
    simp [hdpos.ne']
  · unfold time_constant_acceleration
    rw [hd]
    simp [hacc.ne, div_neg_of_pos_of_neg hdpos hacc]
  · unfold time_constant_acceleration
    rw [hd]
    simp [hdpos.ne']

/-- Counterexample to claim C5 as stated: at `acceleration = -1` the call
raises `ValueError` (from `dt.timedelta(seconds=nan)`) rather than returning
a defined degenerate duration. -/
theorem degenerate_inputs_counterexample :
    time_constant_acceleration ephDemo 0 "earth" "mars" (-1) none =
      .error .valueError := by
  unfold time_constant_acceleration
  rw [distance_ephDemo_earth_mars 0 none]
  norm_num

/-- Witness for `degenerate_inputs_behavior` at the concrete demo ephemeris
with `v = -2`, `acc = -3`. -/
theorem degenerate_inputs_behavior_witness :
    distance ephDemo 0 "earth" "mars" none = .ok 1 ∧ (0 : ℝ) < 1 ∧
    (-2 : ℝ) < 0 ∧ (-3 : ℝ) < 0 ∧
    time_constant_velocity ephDemo 0 "earth" "mars" (-2) none =
      .ok ((1 : ℝ) / (-2)) ∧
    time_constant_velocity ephDemo 0 "earth" "mars" 0 none = .error .overflowError ∧
    time_constant_acceleration ephDemo 0 "earth" "mars" (-3) none = .error .valueError ∧
    time_constant_acceleration ephDemo 0 "earth" "mars" 0 none = .error .overflowError := by
  have h := degenerate_inputs_behavior (distance_ephDemo_earth_mars 0 none)
    (by norm_num) (show (-2 : ℝ) < 0 by norm_num) (show (-3 : ℝ) < 0 by norm_num)
  exact ⟨distance_ephDemo_earth_mars 0 none, by norm_num, by norm_num, by norm_num,
    h.1, h.2.2.1, h.2.2.2.1, h.2.2.2.2⟩

/-! ## Step lemmas for the Traveler state machine -/

theorem time_constant_velocity_nonneg {eph : Ephemeris} {now : ℝ}
    {a b : String} {t : Option ℝ} {v dur : ℝ} (hv : 0 < v)
    (h : time_constant_velocity eph now a b v t = .ok dur) : 0 ≤ dur := by
  unfold time_constant_velocity at h
  rcases hd : distance eph now a b t with e | d <;> rw [hd] at h
  · simp at h
  · simp [hv.ne'] at h
    exact h ▸ div_nonneg (distance_nonneg hd) hv.le

theorem time_constant_acceleration_nonneg {eph : Ephemeris} {now : ℝ}
    {a b : String} {t : Option ℝ} {acc dur : ℝ}
    (h : time_constant_acceleration eph now a b acc t = .ok dur) : 0 ≤ dur := by
  unfold time_constant_acceleration at h
  rcases hd : distance eph now a b t with e | d <;> rw [hd] at h
  · simp at h
  · dsimp only at h
    split_ifs at h
    simp only [Except.ok.injEq] at h
    exact h ▸ by positivity

theorem step_ok_state {eph : Ephemeris} {now : ℝ} {s s₁ : Traveler} {op : Op}
    (h : step eph now s op = (s₁, none)) :
    ∃ d, opDuration eph now s op = .ok d ∧ s₁.date = s.date + d ∧
      s₁.current_position = finalPos s.current_position [op] := by
  cases op with
  | idle hours =>
    simp only [step, Traveler.idle_hours, Prod.mk.injEq] at h
    exact ⟨hours * 3600, rfl, by rw [← h.1], by rw [← h.1]; rfl⟩
  | travelV dest v =>
    simp only [step, Traveler.travel_constant_velocity] at h
    rcases htv : time_constant_velocity eph now s.current_position dest v
        (some s.date) with e | dur <;> rw [htv] at h
    · simp at h
    · simp only [Prod.mk.injEq] at h
      exact ⟨dur, htv, by rw [← h.1], by rw [← h.1]; rfl⟩
  | travelA dest acc =>
    simp only [step, Traveler.travel_constant_acceleration] at h
    rcases hta : time_constant_acceleration eph now s.current_position dest acc
        (some s.date) with e | dur <;> rw [hta] at h
    · simp at h
    · simp only [Prod.mk.injEq] at h
      exact ⟨dur, hta, by rw [← h.1], by rw [← h.1]; rfl⟩

theorem step_err_state {eph : Ephemeris} {now : ℝ} {s s₁ : Traveler} {op : Op}
    {e : PyError} (h : step eph now s op = (s₁, some e)) :
    s₁ = s ∧ opDuration eph now s op = .error e := by
  cases op with
  | idle hours => simp [step, Traveler.idle_hours] at h
  | travelV dest v =>
    simp only [step, Traveler.travel_constant_velocity] at h
    rcases htv : time_constant_velocity eph now s.current_position dest v
        (some s.date) with e' | dur <;> rw [htv] at h <;>
      simp only [Prod.mk.injEq] at h
    · obtain ⟨hs, he⟩ := h
      injection he with he
      refine ⟨hs.symm, ?_⟩
      simp only [opDuration]
      rw [htv, he]
    · exact absurd h.2 (by simp)
  | travelA dest acc =>
    simp only [step, Traveler.travel_constant_acceleration] at h
    rcases hta : time_constant_acceleration eph now s.current_position dest acc
        (some s.date) with e' | dur <;> rw [hta] at h <;>
      simp only [Prod.mk.injEq] at h
    · obtain ⟨hs, he⟩ := h
      injection he with he
      refine ⟨hs.symm, ?_⟩
      simp only [opDuration]
      rw [hta, he]
    · exact absurd h.2 (by simp)

theorem finalPos_cons (init : String) (op : Op) (ops : List Op) :
    finalPos init (op :: ops) = finalPos (finalPos init [op]) ops := by
  cases op <;> rfl

/-- Arguments under which one call can never move the clock backwards:
nonnegative idle hours and positive travel velocity; a constant-acceleration
travel qualifies for every acceleration (its computed duration, when it is
returned at all, is `2 * sqrt(...) ≥ 0`). -/
def Op.nonReversing : Op → Prop
  | .idle h => 0 ≤ h
  | .travelV _ v => 0 < v
  | .travelA _ _ => True

/-- Claim C10: if the distance/ephemeris computation raises during a travel
call, the same exception propagates to the caller and the state is exactly
the state from before the call — the duration is fully computed before
`date` is mutated, so the travel update is atomic. -/
theorem travel_atomic_on_error {eph : Ephemeris} {now : ℝ} {s : Traveler}
    {dest : String} {v acc : ℝ} {e : PyError}
    (h : distance eph now s.current_position dest (some s.date) = .error e) :
    s.travel_constant_velocity eph now dest v = (s, some e) ∧
    s.travel_constant_acceleration eph now dest acc = (s, some e) := by
  constructor
  · unfold Traveler.travel_constant_velocity time_constant_velocity
    rw [h]
  · unfold Traveler.travel_constant_acceleration time_constant_acceleration
    rw [h]

/-- Witness for `travel_atomic_on_error`: the all-rejecting provider makes
both travel calls fail and return the unchanged state. -/
theorem travel_atomic_on_error_witness :
    distance ephNone 0 (Traveler.start "earth" 0).current_position "mars"
      (some (Traveler.start "earth" 0).date) = .error .bodyNotFound ∧
    Traveler.travel_constant_velocity ephNone 0 (Traveler.start "earth" 0)
      "mars" 5 = (Traveler.start "earth" 0, some .bodyNotFound) ∧
    Traveler.travel_constant_acceleration ephNone 0 (Traveler.start "earth" 0)
      "mars" 5 = (Traveler.start "earth" 0, some .bodyNotFound) := by
  have hd : distance ephNone 0 "earth" "mars" (some 0) = .error .bodyNotFound :=
    distance_err_left ephNone 0 "earth" "mars" (some 0) .bodyNotFound rfl
  have h5 := @travel_atomic_on_error ephNone 0 (Traveler.start "earth" 0)
    "mars" 5 5 .bodyNotFound hd
  exact ⟨hd, h5.1, h5.2⟩

/-- Claim C6 (amended): `date` is non-decreasing across every call whose
arguments are non-reversing — nonnegative idle hours, positive travel
velocity, arbitrary travel acceleration — including calls that raise (which
leave the state unchanged).  As stated for all argument values the claim is
false: see the counterexample. -/
theorem step_date_monotone {eph : Ephemeris} {now : ℝ} {s : Traveler}
    {op : Op} (hop : op.nonReversing) :
    s.date ≤ (step eph now s op).1.date := by
  rcases hstep : step eph now s op with ⟨s₁, err⟩
  cases err with
  | some e => rw [(step_err_state hstep).1]
  | none =>
    obtain ⟨d, hdur, hdate, _⟩ := step_ok_state hstep
    have hd : 0 ≤ d := by
      cases op with
      | idle hours =>
        simp only [opDuration, Except.ok.injEq] at hdur
        simp only [Op.nonReversing] at hop
        rw [← hdur]
        positivity
      | travelV dest v =>
        simp only [Op.nonReversing] at hop
        exact time_constant_velocity_nonneg hop hdur
      | travelA dest acc =>
        exact time_constant_acceleration_nonneg hdur
    simp only [hdate]
    linarith

/-- Counterexample to claim C6 as stated: `idle_hours(-1)` moves `date`
backwards, so monotonicity fails for negative hour values. -/
theorem step_date_monotone_counterexample :
    (step ephNone 0 (Traveler.start "earth" 0) (Op.idle (-1))).1.date = -3600 ∧
    ¬((Traveler.start "earth" 0).date ≤
        (step ephNone 0 (Traveler.start "earth" 0) (Op.idle (-1))).1.date) := by
  constructor
  · show (0 : ℝ) + (-1) * 3600 = -3600
    norm_num
  · show ¬((0 : ℝ) ≤ 0 + (-1) * 3600)
    norm_num

/-- Witness for `step_date_monotone` on a concrete idle call. -/
theorem step_date_monotone_witness :
    Op.nonReversing (Op.idle 5) ∧
    (Traveler.start "earth" 0).date ≤
      (step ephNone 0 (Traveler.start "earth" 0) (Op.idle 5)).1.date :=
  ⟨by norm_num [Op.nonReversing],
    step_date_monotone (by norm_num [Op.nonReversing])⟩

/-- Claim C1: a sequence of calls that completes without error leaves `date`
equal to the initial date plus the sum, in call order, of every idle duration
and every travel duration computed by the pure kinematics layer at the state
current when the call was made, and leaves `current_position` equal to the
destination of the last travel call (or the initial position if there was
none). -/
theorem run_accumulates {eph : Ephemeris} {now : ℝ} {ops : List Op} :
    ∀ {s s' : Traveler}, run eph now s ops = (s', none) →
      s'.date = s.date + (durations eph now s ops).sum ∧
      s'.current_position = finalPos s.current_position ops := by
  induction ops with
  | nil =>
    intro s s' h
    simp only [run, Prod.mk.injEq] at h
    rw [← h.1]
    simp [durations, finalPos]
  | cons op ops ih =>
    intro s s' h
    simp only [run] at h
    rcases hstep : step eph now s op with ⟨s₁, err⟩
    rw [hstep] at h
    cases err with
    | some e => simp at h
    | none =>
      obtain ⟨d, hdur, hdate, hpos⟩ := step_ok_state hstep
      obtain ⟨ihd, ihp⟩ := ih h
      constructor
      · rw [ihd, hdate, durations, hdur]
        simp only [hstep, List.sum_cons]
        ring
      · rw [ihp, finalPos_cons, ← hpos]

/-- A three-leg demo itinerary: idle one hour, then fly to mars at 2 m/s,
then to jupiter at 4 m/s² (both distances are 1 m under `ephDemo`). -/
def demoOps : List Op :=
  [.idle 1, .travelV "mars" 2, .travelA "jupiter" 4]

theorem demo_step_idle :
    step ephDemo 0 (Traveler.start "earth" 0) (Op.idle 1) =
      (⟨"earth", 3600⟩, none) := by
  show ((⟨"earth", (0 : ℝ) + 1 * 3600⟩ : Traveler), (none : Option PyError)) =
    ((⟨"earth", 3600⟩ : Traveler), none)
  norm_num

theorem demo_step_travelV :
    step ephDemo 0 ⟨"earth", 3600⟩ (Op.travelV "mars" 2) =
      (⟨"mars", 7201 / 2⟩, none) := by
  have htv : time_constant_velocity ephDemo 0 "earth" "mars" 2 (some 3600) =
      .ok ((1 : ℝ) / 2) :=
    tcv_ok (distance_ephDemo_earth_mars 0 (some 3600)) (by norm_num)
  dsimp only [step, Traveler.travel_constant_velocity]
  rw [htv]
  norm_num

theorem demo_step_travelA :
    step ephDemo 0 ⟨"mars", 7201 / 2⟩ (Op.travelA "jupiter" 4) =
      (⟨"jupiter", 7203 / 2⟩, none) := by
  have hsqrt : Real.sqrt ((1 : ℝ) / 4) = 1 / 2 := by
    rw [show ((1 : ℝ) / 4) = (1 / 2) ^ 2 by norm_num,
      Real.sqrt_sq (by norm_num : (0 : ℝ) ≤ 1 / 2)]
  have hta : time_constant_acceleration ephDemo 0 "mars" "jupiter" 4
      (some (7201 / 2)) = .ok 1 := by
    rw [tca_ok (distance_ephDemo_mars_jupiter 0 (some (7201 / 2)))
      (by norm_num), hsqrt]
    norm_num
  dsimp only [step, Traveler.travel_constant_acceleration]
  rw [hta]
  norm_num

/-- Witness for `run_accumulates` on the concrete demo itinerary: one hour of
idling (3600 s), a 0.5 s velocity leg and a 1 s acceleration leg end at
jupiter at `t = 7203/2` seconds. -/
theorem run_accumulates_witness :
    run ephDemo 0 (Traveler.start "earth" 0) demoOps =
      (⟨"jupiter", 7203 / 2⟩, none) ∧
    (Traveler.mk "jupiter" (7203 / 2)).date =
      (Traveler.start "earth" 0).date +
        (durations ephDemo 0 (Traveler.start "earth" 0) demoOps).sum ∧
    (Traveler.mk "jupiter" (7203 / 2)).current_position =
      finalPos (Traveler.start "earth" 0).current_position demoOps := by
  have hrun : run ephDemo 0 (Traveler.start "earth" 0) demoOps =
      (⟨"jupiter", 7203 / 2⟩, none) := by
    simp only [demoOps, run, demo_step_idle, demo_step_travelV, demo_step_travelA]
  have h := run_accumulates hrun
  exact ⟨hrun, h.1, h.2⟩
